import Mathlib

/-!
Verification of the retrieval-orchestration core of the
Universal-Document-Intelligence-Chatbot repository: the query router
(`src/components/query_router.py`), the document chunker
(`src/components/document_processor.py`) and the retrieval orchestrator
embedded in the application driver (`src/app.py`).

Python strings are modelled as lists of characters (`PyStr`); Python float
scores are modelled as rationals where only their ordering matters.
-/

/-- Python strings, modelled as lists of characters. -/
abbrev PyStr := List Char

set_option maxRecDepth 100000
set_option maxHeartbeats 4000000

/-- ASCII whitespace recognised by Python `str.strip` and the `\s` class. -/
def isWsChar (c : Char) : Bool :=
  c = ' ' || c = '\t' || c = '\n' || c = '\r' || c = '\x0b' || c = '\x0c'

/-- Python `str.strip()`: remove leading and trailing whitespace. -/
def pyStrip (s : PyStr) : PyStr :=
  (((s.dropWhile isWsChar).reverse).dropWhile isWsChar).reverse

/-- Python `str.lower()` on the basic latin range (queries and documents are
modelled over ASCII text). -/
def pyLower (s : PyStr) : PyStr := s.map Char.toLower

theorem toNat_charOfNat_of_lt {n : Nat} (h : n < 55296) : (Char.ofNat n).toNat = n := by
  have hv : n.isValidChar := Or.inl h
  unfold Char.ofNat
  simp only [hv, dite_true, Char.ofNatAux, Char.toNat]
  rfl

theorem charToLower_toLower (c : Char) : c.toLower.toLower = c.toLower := by
  unfold Char.toLower
  by_cases h : c.toNat ≥ 65 ∧ c.toNat ≤ 90
  · have h32 : c.toNat + 32 < 55296 := by omega
    have e1 : (if c.toNat ≥ 65 ∧ c.toNat ≤ 90 then Char.ofNat (c.toNat + 32) else c) =
        Char.ofNat (c.toNat + 32) := if_pos h
    simp only [e1, toNat_charOfNat_of_lt h32]
    exact if_neg (by omega)
  · simp only [h, if_false]

theorem pyLower_idem (s : PyStr) : pyLower (pyLower s) = pyLower s := by
  induction s with
  | nil => rfl
  | cons c t ih =>
    show (c.toLower.toLower :: pyLower (pyLower t)) = c.toLower :: pyLower t
    rw [charToLower_toLower, ih]

/-! ## Query router (`src/components/query_router.py`, `QueryRouter.route_query`) -/

/-- The three routing destinations. -/
inductive Route
  | document
  | web
  | hybrid
deriving DecidableEq, Repr

/-- The dictionary returned by `QueryRouter.route_query`. -/
structure RouteDecision where
  route : Route
  confidence : ℚ
  reason : PyStr
deriving DecidableEq, Repr

def noDocsReason : PyStr := "No documents available".data
def webRouteReason : PyStr := "Query suggests need for current/external information".data
def docRouteReason : PyStr := "Query appears to reference document content".data
def hybridRouteReason : PyStr := "Query could benefit from both sources".data
def defaultRouteReason : PyStr := "Default to document search".data

/-- `QueryRouter.route_query`, parametric in the two scoring heuristics
`_calculate_web_score` and `_calculate_document_score` (their float values
are taken as given; only the lowercased query is passed to them, and the
decision logic compares them to the fixed thresholds). -/
def routeQuery (webScore documentScore : PyStr → ℚ)
    (query : PyStr) (hasDocuments : Bool) : RouteDecision :=
  let queryLower := pyLower query
  if !hasDocuments then
    ⟨Route.web, 1, noDocsReason⟩
  else
    let w := webScore queryLower
    let d := documentScore queryLower
    if w > 7/10 then
      ⟨Route.web, w, webRouteReason⟩
    else if d > 6/10 then
      ⟨Route.document, d, docRouteReason⟩
    else if w > 4/10 ∧ d > 4/10 then
      ⟨Route.hybrid, (w + d) / 2, hybridRouteReason⟩
    else
      ⟨Route.document, 1/2, defaultRouteReason⟩

/-- Claim C1: with no corpus the router always answers web with confidence 1;
with a corpus the decision follows first-match-wins order over the two scores
of the lowercased query: webScore > 0.7 gives web with that confidence, else
documentScore > 0.6 gives document, else both > 0.4 gives hybrid with the
mean confidence, else document with confidence exactly 0.5. -/
theorem routeQuery_decision_logic (ws ds : PyStr → ℚ) (q : PyStr) :
    routeQuery ws ds q false = ⟨Route.web, 1, noDocsReason⟩ ∧
    (ws (pyLower q) > 7/10 →
      routeQuery ws ds q true = ⟨Route.web, ws (pyLower q), webRouteReason⟩) ∧
    (ws (pyLower q) ≤ 7/10 → ds (pyLower q) > 6/10 →
      routeQuery ws ds q true = ⟨Route.document, ds (pyLower q), docRouteReason⟩) ∧
    (ws (pyLower q) ≤ 7/10 → ds (pyLower q) ≤ 6/10 →
      ws (pyLower q) > 4/10 → ds (pyLower q) > 4/10 →
      routeQuery ws ds q true =
        ⟨Route.hybrid, (ws (pyLower q) + ds (pyLower q)) / 2, hybridRouteReason⟩) ∧
    (ws (pyLower q) ≤ 7/10 → ds (pyLower q) ≤ 6/10 →
      ¬(ws (pyLower q) > 4/10 ∧ ds (pyLower q) > 4/10) →
      routeQuery ws ds q true = ⟨Route.document, 1/2, defaultRouteReason⟩) := by
  refine ⟨rfl, ?_, ?_, ?_, ?_⟩
  · intro hw
    simp [routeQuery, hw]
  · intro hw hd
    simp [routeQuery, hd, not_lt.mpr hw]
  · intro hw hd hw4 hd4
    simp [routeQuery, not_lt.mpr hw, not_lt.mpr hd, hw4, hd4]
  · intro hw hd hnot
    simp only [routeQuery, Bool.not_true, Bool.false_eq_true, if_false, if_neg (not_lt.mpr hw),
      if_neg (not_lt.mpr hd), if_neg hnot]

/-- Witness for C1 at a concrete input: the no-corpus branch at a sample
scoring pair and query. -/
theorem routeQuery_decision_logic_witness :
    routeQuery (fun _ => 0) (fun _ => 0) "hello".data false =
      ⟨Route.web, 1, noDocsReason⟩ :=
  (routeQuery_decision_logic (fun _ => 0) (fun _ => 0) "hello".data).1

/-- Claim C10: routing is case-insensitive — the decision depends only on the
lowercased query, for any scoring heuristics, query and corpus flag. -/
theorem routeQuery_case_insensitive (ws ds : PyStr → ℚ) (q : PyStr) (b : Bool) :
    routeQuery ws ds q b = routeQuery ws ds (pyLower q) b := by
  unfold routeQuery
  rw [pyLower_idem]

/-- Witness for C10 at a concrete query. -/
theorem routeQuery_case_insensitive_witness :
    routeQuery (fun s => (s.length : ℚ) / 100) (fun _ => 0) "What IS This".data true =
      routeQuery (fun s => (s.length : ℚ) / 100) (fun _ => 0)
        (pyLower "What IS This".data) true :=
  routeQuery_case_insensitive _ _ _ _

/-! ## Text splitting (`DocumentProcessor._split_text_recursive` and
`DocumentProcessor._find_sentence_break`) -/

/-- Python slice `text[a:b]` for non-negative bounds. -/
def pySliceN (s : PyStr) (a b : Nat) : PyStr := (s.take b).drop a

/-- Scan the suffixes of the text in ascending position order, remembering the
last (hence highest) admissible position where `sub` occurs. -/
def rfindScan (sub : PyStr) (a e : Nat) : Nat → PyStr → Int → Int
  | _, [], best => best
  | i, c :: t, best =>
    if a ≤ i && i + sub.length ≤ e && sub.isPrefixOf (c :: t) then
      rfindScan sub a e (i + 1) t (i : Int)
    else rfindScan sub a e (i + 1) t best

/-- Python `text.rfind(sub, a, b)`: the highest index `i` with `a ≤ i`,
`i + len(sub) ≤ min(b, len(text))` and `sub` occurring at `i`, else `-1`. -/
def pyRfind (s sub : PyStr) (a b : Nat) : Int :=
  rfindScan sub a (min b s.length) 0 s (-1)

/-- The sentence-ending patterns of `_find_sentence_break`. -/
def sentenceEnds : List PyStr :=
  [". ".data, "! ".data, "? ".data, ".\n".data, "!\n".data, "?\n".data]

/-- `DocumentProcessor._find_sentence_break(text, start, end)`. -/
def findSentenceBreak (text : PyStr) (start e : Nat) : Int :=
  let ss := max start (e - 200)
  sentenceEnds.foldl
    (fun best p =>
      let pos := pyRfind text p ss e
      if pos ≠ -1 then max best (pos + (p.length : Int)) else best)
    (-1)

/-- The break position used by one iteration of the `_split_text_recursive`
loop: the sentence break if one was found, otherwise the hard limit `e`. -/
def breakPoint (text : PyStr) (start e : Nat) : Nat :=
  if findSentenceBreak text start e = -1 then e
  else (findSentenceBreak text start e).toNat

/-- The next value of `start` after one loop iteration of
`_split_text_recursive`: `break_point - chunk_overlap`, clamped at 0
(natural subtraction models Python's explicit `if start < 0: start = 0`). -/
def nextStart (cs ov : Nat) (text : PyStr) (start : Nat) : Nat :=
  breakPoint text start (start + cs) - ov

/-- The `while start < len(text)` loop of `_split_text_recursive`, with
explicit fuel (the Python loop does not terminate for every configuration;
`splitTextRecursive` supplies enough fuel for every terminating run). -/
def splitLoop (cs ov : Nat) (text : PyStr) : Nat → Nat → List PyStr
  | 0, _ => []
  | fuel + 1, start =>
    if start < text.length then
      if text.length ≤ start + cs then [text.drop start]
      else
        pySliceN text start (breakPoint text start (start + cs)) ::
          splitLoop cs ov text fuel (nextStart cs ov text start)
    else []

/-- `DocumentProcessor._split_text_recursive(text)` for a processor configured
with chunk size `cs` and overlap `ov`. -/
def splitTextRecursive (cs ov : Nat) (text : PyStr) : List PyStr :=
  if text.length ≤ cs then [text] else splitLoop cs ov text (text.length + 1) 0

theorem rfindScan_spec {sub : PyStr} {a e : Nat} :
    ∀ (t : PyStr) (i : Nat) (best : Int),
      (best = -1 ∨ ∃ j : Nat, best = (j : Int) ∧ a ≤ j ∧ j + sub.length ≤ e) →
      (rfindScan sub a e i t best = -1 ∨
        ∃ j : Nat, rfindScan sub a e i t best = (j : Int) ∧ a ≤ j ∧
          j + sub.length ≤ e) := by
  intro t
  induction t with
  | nil => intro i best hb; simpa [rfindScan] using hb
  | cons c t ih =>
    intro i best hb
    unfold rfindScan
    by_cases hc : a ≤ i ∧ i + sub.length ≤ e ∧ sub.isPrefixOf (c :: t) = true
    · rw [if_pos (by simp [hc.1, hc.2.1, hc.2.2])]
      exact ih (i + 1) (i : Int) (Or.inr ⟨i, rfl, hc.1, hc.2.1⟩)
    · rw [if_neg (by
        intro hcon
        simp only [Bool.and_eq_true, decide_eq_true_eq] at hcon
        exact hc ⟨hcon.1.1, hcon.1.2, hcon.2⟩)]
      exact ih (i + 1) best hb

theorem pyRfind_spec {s sub : PyStr} {a b : Nat} {k : Int}
    (h : pyRfind s sub a b = k) (hk : k ≠ -1) :
    ∃ j : Nat, k = (j : Int) ∧ a ≤ j ∧ j + sub.length ≤ min b s.length := by
  unfold pyRfind at h
  rcases rfindScan_spec s 0 (-1) (Or.inl rfl) with h1 | ⟨j, hj, hja, hjb⟩
  · rw [h] at h1
    exact absurd h1 hk
  · rw [h] at hj
    exact ⟨j, hj.symm ▸ hj, hja, hjb⟩

theorem sentenceEnds_length : ∀ p ∈ sentenceEnds, p.length = 2 := by
  decide

/-- Any non-(-1) result of `findSentenceBreak` lies in
`[max start (e-200) + 2, e]`. -/
theorem findSentenceBreak_bounds (text : PyStr) (start e : Nat)
    (h : findSentenceBreak text start e ≠ -1) :
    (max start (e - 200) + 2 : Int) ≤ findSentenceBreak text start e ∧
      findSentenceBreak text start e ≤ (e : Int) := by
  unfold findSentenceBreak at *
  generalize hss : max start (e - 200) = ss at *
  suffices H : ∀ (l : List PyStr), (∀ p ∈ l, p.length = 2) → ∀ best : Int,
      (best = -1 ∨ ((ss + 2 : Int) ≤ best ∧ best ≤ (e : Int))) →
      (l.foldl (fun best p =>
        let pos := pyRfind text p ss e
        if pos ≠ -1 then max best (pos + (p.length : Int)) else best) best = -1 ∨
      ((ss + 2 : Int) ≤ l.foldl (fun best p =>
        let pos := pyRfind text p ss e
        if pos ≠ -1 then max best (pos + (p.length : Int)) else best) best ∧
        l.foldl (fun best p =>
          let pos := pyRfind text p ss e
          if pos ≠ -1 then max best (pos + (p.length : Int)) else best) best ≤ (e : Int))) by
    rcases H sentenceEnds sentenceEnds_length (-1) (Or.inl rfl) with h1 | h2
    · exact absurd h1 h
    · exact h2
  intro l
  induction l with
  | nil => intro _ best hb; simpa using hb
  | cons p ps ih =>
    intro hlen best hb
    simp only [List.foldl_cons]
    apply ih (fun q hq => hlen q (List.mem_cons_of_mem p hq))
    by_cases hpos : pyRfind text p ss e ≠ -1
    · obtain ⟨j, hj, haj, hjb⟩ := pyRfind_spec rfl hpos
      have hp2 : p.length = 2 := hlen p (List.mem_cons_self p ps)
      simp only [if_pos hpos]
      right
      constructor
      · rcases hb with hb | hb
        · rw [hj, hp2]
          have : (ss : Int) ≤ (j : Int) := by exact_mod_cast haj
          omega
        · calc (ss + 2 : Int) ≤ best := hb.1
            _ ≤ max best _ := le_max_left _ _
      · apply max_le
        · rcases hb with hb | hb
          · rw [hb]; omega
          · exact hb.2
        · rw [hj, hp2]
          have : j + 2 ≤ e := by omega
          exact_mod_cast this
    · simpa [if_neg hpos] using hb

/-- The break point of one loop iteration lies in `(start, start + cs]`
provided `0 < cs`, and always at or beyond `max start (start+cs-200) + 2`
when a sentence break was found. -/
theorem breakPoint_bounds (text : PyStr) (start cs : Nat) (hcs : 0 < cs) :
    start < breakPoint text start (start + cs) ∧
      breakPoint text start (start + cs) ≤ start + cs ∧
      (breakPoint text start (start + cs) = start + cs ∨
        max start (start + cs - 200) + 2 ≤ breakPoint text start (start + cs)) := by
  unfold breakPoint
  by_cases h : findSentenceBreak text start (start + cs) = -1
  · rw [if_pos h]
    exact ⟨by omega, Nat.le_refl _, Or.inl rfl⟩
  · obtain ⟨hlo, hhi⟩ := findSentenceBreak_bounds text start (start + cs) h
    rw [if_neg h]
    have hnn : (0 : Int) ≤ findSentenceBreak text start (start + cs) := by omega
    refine ⟨?_, ?_, Or.inr ?_⟩ <;> omega

/-- The break point never exceeds the hard limit `e`, for any configuration. -/
theorem breakPoint_le_e (text : PyStr) (start e : Nat) :
    breakPoint text start e ≤ e := by
  unfold breakPoint
  by_cases h : findSentenceBreak text start e = -1
  · rw [if_pos h]
  · rw [if_neg h]
    obtain ⟨_, hhi⟩ := findSentenceBreak_bounds text start e h
    omega

/-- Claim C7 (amended): whenever `overlap + 199 ≤ chunkSize`, every
non-final iteration of the splitting loop strictly advances `start`. -/
theorem nextStart_progress (cs ov : Nat) (text : PyStr) (start : Nat)
    (hcfg : ov + 199 ≤ cs) (_hrun : start + cs < text.length) :
    start < nextStart cs ov text start := by
  obtain ⟨h1, h2, h3⟩ := breakPoint_bounds text start cs (by omega)
  unfold nextStart
  rcases h3 with h3 | h3
  · omega
  · have hmax : start + cs - 200 ≤ max start (start + cs - 200) := le_max_right _ _
    omega

/-- Witness for C7's amended theorem: with chunk size 199 and overlap 0 on a
200-character text the first iteration advances `start` from 0. -/
theorem nextStart_progress_witness :
    0 + 199 ≤ 199 ∧ 0 + 199 < (List.replicate 200 'x').length ∧
      0 < nextStart 199 0 (List.replicate 200 'x') 0 :=
  ⟨by decide, by decide, nextStart_progress 199 0 _ 0 (by decide) (by decide)⟩

/-- Counterexample for C7 as stated: with chunk size 1 and overlap 2 on the
text `". x"` the loop's first iteration leaves `start` at 0 (Python loops
forever), so the new start does not strictly advance for every configuration. -/
theorem nextStart_no_progress_counterexample :
    0 + 1 < (". x".data).length ∧ nextStart 1 2 ". x".data 0 = 0 ∧
      ¬ (0 < nextStart 1 2 ". x".data 0) := by
  refine ⟨by decide, by decide, by decide⟩

theorem breakPoint_gt_start_add_ov (cs ov : Nat) (text : PyStr) (start : Nat)
    (hcfg : ov + 199 ≤ cs) :
    start + ov < breakPoint text start (start + cs) := by
  obtain ⟨h1, h2, h3⟩ := breakPoint_bounds text start cs (by omega)
  rcases h3 with h3 | h3
  · omega
  · have hmax : start + cs - 200 ≤ max start (start + cs - 200) := le_max_right _ _
    have hmax2 : start ≤ max start (start + cs - 200) := le_max_left _ _
    omega

/-- Every chunk the splitting loop emits has length at most the chunk size. -/
theorem splitLoop_length_le (cs ov : Nat) (text : PyStr) :
    ∀ fuel start, ∀ c ∈ splitLoop cs ov text fuel start, c.length ≤ cs := by
  intro fuel
  induction fuel with
  | zero => intro start c hc; simp [splitLoop] at hc
  | succ fuel ih =>
    intro start c hc
    unfold splitLoop at hc
    split at hc
    · split at hc
      · rw [List.mem_singleton] at hc
        subst hc
        simp only [List.length_drop]
        omega
      · rcases List.mem_cons.mp hc with hc | hc
        · subst hc
          have h2 := breakPoint_le_e text start (start + cs)
          simp only [pySliceN, List.length_drop, List.length_take]
          omega
        · exact ih _ c hc
    · simp at hc

/-- Every chunk of `_split_text_recursive` has length at most the chunk
size (hence in particular at most chunk size + overlap). -/
theorem splitTextRecursive_length_le (cs ov : Nat) (text : PyStr) :
    ∀ c ∈ splitTextRecursive cs ov text, c.length ≤ cs := by
  intro c hc
  unfold splitTextRecursive at hc
  split at hc
  · rw [List.mem_singleton] at hc
    subst hc
    omega
  · exact splitLoop_length_le cs ov text _ 0 c hc

/-! ## Reconstruction of the split text (claim C6) -/

/-- Concatenate the tail chunks with their leading `ov`-character overlap
removed. -/
def joinTail (ov : Nat) (l : List PyStr) : PyStr :=
  (l.map (List.drop ov)).flatten

/-- Concatenate a chunk list in order, removing each chunk's leading overlap
region shared with its predecessor. -/
def glueChunks (ov : Nat) : List PyStr → PyStr
  | [] => []
  | c :: rest => c ++ joinTail ov rest

theorem pySliceN_append_drop (t : PyStr) (a b : Nat) (hab : a ≤ b) :
    pySliceN t a b ++ t.drop b = t.drop a := by
  by_cases h : a ≤ (t.take b).length
  · conv_rhs => rw [← List.take_append_drop b t]
    rw [List.drop_append_of_le_length h, pySliceN]
  · simp only [List.length_take] at h
    push_neg at h
    have hlen : t.length < a := by omega
    have h1 : pySliceN t a b = [] := by
      apply List.drop_eq_nil_of_le
      simp only [List.length_take]
      omega
    have h2 : t.drop b = [] := List.drop_eq_nil_of_le (by omega)
    have h3 : t.drop a = [] := List.drop_eq_nil_of_le (by omega)
    rw [h1, h2, h3]
    rfl

theorem splitLoop_joinTail (cs ov : Nat) (text : PyStr) (hcfg : ov + 199 ≤ cs) :
    ∀ fuel start, start < text.length → text.length - start ≤ fuel →
      joinTail ov (splitLoop cs ov text fuel start) = text.drop (start + ov) := by
  intro fuel
  induction fuel with
  | zero => intro start h1 h2; omega
  | succ fuel ih =>
    intro start h1 h2
    unfold splitLoop
    rw [if_pos h1]
    by_cases hfin : text.length ≤ start + cs
    · rw [if_pos hfin]
      simp only [joinTail, List.map_cons, List.map_nil, List.flatten_cons, List.flatten_nil,
        List.append_nil, List.drop_drop]
    · rw [if_neg hfin]
      have hbp := breakPoint_gt_start_add_ov cs ov text start hcfg
      obtain ⟨hbp1, hbp2, _⟩ := breakPoint_bounds text start cs (by omega)
      have hns : nextStart cs ov text start = breakPoint text start (start + cs) - ov := rfl
      have hlt : start < nextStart cs ov text start := by rw [hns]; omega
      have hlen : nextStart cs ov text start < text.length := by rw [hns]; omega
      have hto : nextStart cs ov text start + ov = breakPoint text start (start + cs) := by
        rw [hns]; omega
      simp only [joinTail, List.map_cons, List.flatten_cons]
      have hrec := ih (nextStart cs ov text start) hlen (by omega)
      rw [joinTail] at hrec
      rw [hrec, hto]
      have hslice : List.drop ov (pySliceN text start (breakPoint text start (start + cs))) =
          pySliceN text (start + ov) (breakPoint text start (start + cs)) := by
        simp only [pySliceN, List.drop_drop]
      rw [hslice]
      exact pySliceN_append_drop text (start + ov) (breakPoint text start (start + cs)) (by omega)

theorem splitLoop_glue (cs ov : Nat) (text : PyStr) (hcfg : ov + 199 ≤ cs)
    (fuel start : Nat) (h1 : start < text.length) (h2 : text.length - start ≤ fuel) :
    glueChunks ov (splitLoop cs ov text fuel start) = text.drop start := by
  cases fuel with
  | zero => omega
  | succ fuel =>
    unfold splitLoop
    rw [if_pos h1]
    by_cases hfin : text.length ≤ start + cs
    · rw [if_pos hfin]
      simp [glueChunks, joinTail]
    · rw [if_neg hfin]
      have hbp := breakPoint_gt_start_add_ov cs ov text start hcfg
      obtain ⟨hbp1, hbp2, _⟩ := breakPoint_bounds text start cs (by omega)
      have hns : nextStart cs ov text start = breakPoint text start (start + cs) - ov := rfl
      have hlt : start < nextStart cs ov text start := by rw [hns]; omega
      have hlen : nextStart cs ov text start < text.length := by rw [hns]; omega
      have hto : nextStart cs ov text start + ov = breakPoint text start (start + cs) := by
        rw [hns]; omega
      simp only [glueChunks]
      have hrec := splitLoop_joinTail cs ov text hcfg fuel (nextStart cs ov text start)
        hlen (by omega)
      rw [hrec, hto]
      exact pySliceN_append_drop text start (breakPoint text start (start + cs)) (by omega)

/-- Claim C6 (amended): for a splitter whose overlap satisfies
`overlap + 199 ≤ chunkSize` (the configured defaults 200 and 1000 included),
concatenating the raw emitted chunks in order, with each chunk's leading
`overlap`-character region shared with its predecessor removed, reconstructs
the original section text exactly. -/
theorem splitTextRecursive_reconstruction (cs ov : Nat) (text : PyStr)
    (hcfg : ov + 199 ≤ cs) :
    glueChunks ov (splitTextRecursive cs ov text) = text := by
  unfold splitTextRecursive
  split
  · simp [glueChunks, joinTail]
  · rename_i h
    push_neg at h
    have := splitLoop_glue cs ov text hcfg (text.length + 1) 0 (by omega) (by omega)
    simpa using this

/-- Witness for C6's amended theorem at the configured defaults on a sample
text. -/
theorem splitTextRecursive_reconstruction_witness :
    glueChunks 200 (splitTextRecursive 1000 200 "Short sample text.".data) =
      "Short sample text.".data :=
  splitTextRecursive_reconstruction 1000 200 _ (by omega)

/-- Counterexample for C6 as stated: the emitted chunks' `content` field is
trimmed (`chunk_text.strip()`), so on the section text `"a\n"` the emitted
content is `"a"` and gluing the contents does not reconstruct the section
text. -/
theorem chunk_content_reconstruction_counterexample :
    glueChunks 200 ((splitTextRecursive 1000 200 "a\n".data).map pyStrip) ≠
      "a\n".data := by
  decide

/-! ## Section segmentation (`DocumentProcessor._split_by_sections`) -/

def pyIsDigit (c : Char) : Bool := '0' ≤ c && c ≤ '9'

def isUpperAZ (c : Char) : Bool := 'A' ≤ c && c ≤ 'Z'

def isLowerAZ (c : Char) : Bool := 'a' ≤ c && c ≤ 'z'

/-- Header pattern `^[A-Z\s]{3,}$` on a stripped line. -/
def headerAllCaps (l : PyStr) : Bool :=
  decide (3 ≤ l.length) && l.all (fun c => isUpperAZ c || isWsChar c)

/-- Header pattern `^\d+\.\s+[A-Z].*$` on a stripped line. -/
def headerNumbered (l : PyStr) : Bool :=
  let ds := l.takeWhile pyIsDigit
  let r1 := l.dropWhile pyIsDigit
  !ds.isEmpty &&
    match r1 with
    | '.' :: r2 =>
      let w := r2.takeWhile isWsChar
      let r3 := r2.dropWhile isWsChar
      !w.isEmpty &&
        match r3 with
        | c :: _ => isUpperAZ c
        | [] => false
    | _ => false

/-- Consume one `[A-Z][a-z]+` word, returning the remainder. -/
def titleWordSplit : PyStr → Option PyStr
  | [] => none
  | c :: rest =>
    if isUpperAZ c then
      let lows := rest.takeWhile isLowerAZ
      if lows.isEmpty then none else some (rest.dropWhile isLowerAZ)
    else none

/-- After a title-case word: match `(?:\s+[A-Z][a-z]+)*:?\s*$`. -/
def titleRest : Nat → PyStr → Bool
  | _, [] => true
  | _, ':' :: rest => rest.all isWsChar
  | 0, _ => false
  | fuel + 1, c :: rest =>
    if isWsChar c then
      let r := (c :: rest).dropWhile isWsChar
      if r.isEmpty then true
      else
        match titleWordSplit r with
        | some r2 => titleRest fuel r2
        | none => false
    else false

/-- Header pattern `^[A-Z][a-z]+(?:\s+[A-Z][a-z]+)*:?\s*$` on a stripped
line. -/
def headerTitleCase (l : PyStr) : Bool :=
  match titleWordSplit l with
  | some r => titleRest l.length r
  | none => false

/-- Header pattern `^\*\*.*\*\*$` on a stripped line (no newline inside a
line, so `.*` matches everything between the stars). -/
def headerBold (l : PyStr) : Bool :=
  decide (4 ≤ l.length) && "**".data.isPrefixOf l && "**".data.isSuffixOf l

/-- Header pattern `^#+\s+.*$` on a stripped line. -/
def headerMarkdown (l : PyStr) : Bool :=
  let hs := l.takeWhile (fun c => c = '#')
  let r := l.dropWhile (fun c => c = '#')
  !hs.isEmpty &&
    match r with
    | c :: _ => isWsChar c
    | [] => false

/-- A stripped line is classified as a header when any of the five fixed
structural patterns matches. -/
def isHeader (l : PyStr) : Bool :=
  headerAllCaps l || headerNumbered l || headerTitleCase l || headerBold l ||
    headerMarkdown l

/-- Python `text.split('\n')`: `acc` accumulates the current segment in
reverse. -/
def pySplitOnNlAux (acc : PyStr) : PyStr → List PyStr
  | [] => [acc.reverse]
  | c :: t =>
    if c = '\n' then acc.reverse :: pySplitOnNlAux [] t
    else pySplitOnNlAux (c :: acc) t

/-- Python `text.split('\n')`. -/
def pySplitOnNl (s : PyStr) : List PyStr := pySplitOnNlAux [] s

/-- A section accumulated by `_split_by_sections`. -/
structure PySection where
  title : PyStr
  text : PyStr
deriving DecidableEq, Repr

/-- The line loop of `_split_by_sections`, where each raw line is first
stripped (`line = line.strip()`). -/
def splitSecLoop : List PyStr → PySection → List PySection
  | [], cur => if pyStrip cur.text ≠ [] then [cur] else []
  | l :: ls, cur =>
    if (pyStrip l).isEmpty then
      splitSecLoop ls ⟨cur.title, cur.text ++ ['\n']⟩
    else if isHeader (pyStrip l) && decide (50 < (pyStrip cur.text).length) then
      cur :: splitSecLoop ls ⟨pyStrip l, []⟩
    else
      splitSecLoop ls ⟨cur.title, cur.text ++ pyStrip l ++ ['\n']⟩

/-- `DocumentProcessor._split_by_sections(text)`. -/
def splitBySections (text : PyStr) : List PySection :=
  splitSecLoop (pySplitOnNl text) ⟨"Introduction".data, []⟩

/-! ## Page attribution (`DocumentProcessor._find_page_numbers`) and chunk
assembly (`DocumentProcessor._create_intelligent_chunks`,
`DocumentProcessor.process_pdf`) -/

/-- One extracted page: its 1-based number and its raw text. -/
structure Page where
  num : Nat
  text : PyStr
deriving DecidableEq, Repr

/-- Python substring containment `sub in s`. -/
def containsSub (sub : PyStr) : PyStr → Bool
  | [] => sub.isEmpty
  | c :: t => sub.isPrefixOf (c :: t) || containsSub sub t

/-- Python `x or d` on an optional page number (`None` and `0` are falsy). -/
def pyOrNat (x : Option Nat) (d : Nat) : Nat :=
  match x with
  | some n => if n = 0 then d else n
  | none => d

/-- `DocumentProcessor._find_page_numbers(chunk_text, page_texts)`: returns
`(start_page, end_page)`. -/
def findPageNumbers (chunkText : PyStr) (pages : List Page) : Nat × Nat :=
  let chunkStart := pyStrip (chunkText.take 100)
  let chunkEnd := pyStrip (chunkText.drop (chunkText.length - 100))
  let r := pages.foldl
    (fun (acc : Option Nat × Option Nat) pg =>
      let sp := if containsSub chunkStart pg.text && acc.1 = none then some pg.num else acc.1
      let ep := if containsSub chunkEnd pg.text then some pg.num else acc.2
      (sp, ep))
    (none, none)
  (pyOrNat r.1 1, pyOrNat r.2 (pyOrNat r.1 1))

/-- Metadata attached to an emitted chunk. -/
structure ChunkMeta where
  filename : PyStr
  sectionTitle : PyStr
  page_start : Nat
  page_end : Nat
  chunk_index : Nat
  chunk_size : Nat
deriving DecidableEq, Repr

/-- An emitted chunk: trimmed content plus metadata. -/
structure Chunk where
  content : PyStr
  metadata : ChunkMeta
deriving DecidableEq, Repr

/-- Build one chunk record exactly as the loop body of
`_create_intelligent_chunks` does: content is the stripped chunk text,
`chunk_size` is the length of the unstripped chunk text, and the index is the
number of chunks emitted so far. -/
def buildChunk (filename : PyStr) (pages : List Page) (sec : PySection)
    (chunkText : PyStr) (index : Nat) : Chunk :=
  let pageInfo := findPageNumbers chunkText pages
  ⟨pyStrip chunkText,
    ⟨filename, sec.title, pageInfo.1, pageInfo.2, index, chunkText.length⟩⟩

/-- `DocumentProcessor._create_intelligent_chunks(text, filename, page_texts)`
for a processor configured with chunk size `cs` and overlap `ov`. -/
def createIntelligentChunks (cs ov : Nat) (text filename : PyStr)
    (pages : List Page) : List Chunk :=
  (splitBySections text).foldl
    (fun acc sec =>
      (splitTextRecursive cs ov sec.text).foldl
        (fun acc2 ct => acc2 ++ [buildChunk filename pages sec ct acc2.length])
        acc)
    []

/-- The page marker `\n[Page {n}]\n` prepended to each page's text. -/
def pageMarker (n : Nat) : PyStr := "\n[Page ".data ++ (Nat.repr n).data ++ "]\n".data

/-- The numbered page list built by `process_pdf` (`page_num + 1` paired with
each page's extracted text). -/
def pagesOf (pageTexts : List PyStr) : List Page :=
  pageTexts.enum.map (fun p => Page.mk (p.1 + 1) p.2)

/-- The `full_text` accumulated by `process_pdf`: each page's text prefixed
with its marker. -/
def fullTextOf (pages : List Page) : PyStr :=
  pages.foldl (fun acc p => acc ++ pageMarker p.num ++ p.text) []

/-- `DocumentProcessor.process_pdf` after text extraction: pages are numbered
from 1, concatenated with markers, and chunked. -/
def processPdf (cs ov : Nat) (pageTexts : List PyStr) (filename : PyStr) :
    List Chunk :=
  createIntelligentChunks cs ov (fullTextOf (pagesOf pageTexts)) filename
    (pagesOf pageTexts)

/-! ## Structural lemmas about the chunker -/

theorem length_dropWhile_le_self (p : Char → Bool) :
    ∀ l : PyStr, (l.dropWhile p).length ≤ l.length := by
  intro l
  induction l with
  | nil => simp
  | cons c t ih =>
    rw [List.dropWhile_cons]
    split
    · exact Nat.le_succ_of_le ih
    · exact Nat.le_refl _

theorem pyStrip_length_le (l : PyStr) : (pyStrip l).length ≤ l.length := by
  unfold pyStrip
  calc ((((l.dropWhile isWsChar).reverse).dropWhile isWsChar).reverse).length
      = (((l.dropWhile isWsChar).reverse).dropWhile isWsChar).length := List.length_reverse _
    _ ≤ ((l.dropWhile isWsChar).reverse).length := length_dropWhile_le_self _ _
    _ = (l.dropWhile isWsChar).length := List.length_reverse _
    _ ≤ l.length := length_dropWhile_le_self _ _

theorem pyStrip_ne_nil_of_strip {l : PyStr} (h : pyStrip l ≠ []) : l ≠ [] := by
  intro hl
  subst hl
  exact h rfl

/-- Every chunk the splitting loop emits is a non-empty piece of text. -/
theorem splitLoop_ne_nil (cs ov : Nat) (hcs : 0 < cs) (text : PyStr) :
    ∀ fuel start, ∀ c ∈ splitLoop cs ov text fuel start, c ≠ [] := by
  intro fuel
  induction fuel with
  | zero => intro start c hc; simp [splitLoop] at hc
  | succ fuel ih =>
    intro start c hc
    unfold splitLoop at hc
    split at hc
    · rename_i hstart
      split at hc
      · rw [List.mem_singleton] at hc
        subst hc
        have : (text.drop start).length = text.length - start := List.length_drop _ _
        intro hnil
        rw [hnil] at this
        simp at this
        omega
      · rcases List.mem_cons.mp hc with hc | hc
        · subst hc
          obtain ⟨hgt, _, _⟩ := breakPoint_bounds text start cs hcs
          intro hnil
          have hlen : (pySliceN text start (breakPoint text start (start + cs))).length = 0 := by
            rw [hnil]; rfl
          simp only [pySliceN, List.length_drop, List.length_take] at hlen
          have hmin : start < min (breakPoint text start (start + cs)) text.length :=
            lt_min hgt hstart
          omega
        · exact ih _ c hc
    · simp at hc

/-- Every chunk of `_split_text_recursive` on a non-empty text is non-empty
as a raw string. -/
theorem splitTextRecursive_ne_nil (cs ov : Nat) (hcs : 0 < cs) (text : PyStr)
    (htext : text ≠ []) : ∀ c ∈ splitTextRecursive cs ov text, c ≠ [] := by
  intro c hc
  unfold splitTextRecursive at hc
  split at hc
  · rw [List.mem_singleton] at hc
    subst hc
    exact htext
  · exact splitLoop_ne_nil cs ov hcs text _ 0 c hc

/-- Every section produced by `_split_by_sections` has text that is non-empty
after stripping (mid-run sections are only cut when the accumulated text
strips to more than 50 characters; the final section is only kept when its
stripped text is non-empty). -/
theorem splitSecLoop_strip_ne_nil :
    ∀ (lines : List PyStr) (cur : PySection),
      ∀ s ∈ splitSecLoop lines cur, pyStrip s.text ≠ [] := by
  intro lines
  induction lines with
  | nil =>
    intro cur s hs
    unfold splitSecLoop at hs
    split at hs
    · rw [List.mem_singleton] at hs
      subst hs
      assumption
    · simp at hs
  | cons l ls ih =>
    intro cur s hs
    unfold splitSecLoop at hs
    split at hs
    · exact ih _ s hs
    · split at hs
      · rename_i hguard
        rcases List.mem_cons.mp hs with hs | hs
        · subst hs
          rw [Bool.and_eq_true, decide_eq_true_eq] at hguard
          intro hnil
          rw [hnil] at hguard
          simp at hguard
        · exact ih _ s hs
      · exact ih _ s hs

theorem splitBySections_strip_ne_nil (text : PyStr) :
    ∀ s ∈ splitBySections text, pyStrip s.text ≠ [] :=
  splitSecLoop_strip_ne_nil _ _

theorem pyOrNat_pos (x : Option Nat) (d : Nat) (hd : 0 < d) : 0 < pyOrNat x d := by
  unfold pyOrNat
  cases x with
  | none => exact hd
  | some n =>
    by_cases h : n = 0
    · simpa [h] using hd
    · simpa [h] using Nat.pos_of_ne_zero h

theorem findPageNumbers_pos (chunkText : PyStr) (pages : List Page) :
    0 < (findPageNumbers chunkText pages).1 ∧ 0 < (findPageNumbers chunkText pages).2 :=
  ⟨pyOrNat_pos _ _ Nat.one_pos, pyOrNat_pos _ _ (pyOrNat_pos _ _ Nat.one_pos)⟩

/-- Members of the inner chunk-accumulating fold either were in the
accumulator already or are freshly built chunks. -/
theorem mem_chunkFold_inner (P : Chunk → Prop) (build : PyStr → Nat → Chunk)
    (cts : List PyStr) :
    ∀ acc : List Chunk, (∀ c ∈ acc, P c) → (∀ ct ∈ cts, ∀ i, P (build ct i)) →
      ∀ c ∈ cts.foldl (fun a ct => a ++ [build ct a.length]) acc, P c := by
  induction cts with
  | nil => intro acc hacc _ c hc; exact hacc c hc
  | cons ct cts ih =>
    intro acc hacc hbuild c hc
    simp only [List.foldl_cons] at hc
    refine ih (acc ++ [build ct acc.length]) ?_
      (fun x hx i => hbuild x (List.mem_cons_of_mem ct hx) i) c hc
    intro d hd
    rcases List.mem_append.mp hd with hd | hd
    · exact hacc d hd
    · rw [List.mem_singleton] at hd
      subst hd
      exact hbuild ct (List.mem_cons_self ct cts) acc.length

/-- Members of the outer section fold are built from some section and some
chunk of its split text. -/
theorem mem_chunkFold_outer (P : Chunk → Prop)
    (bld : PySection → PyStr → Nat → Chunk) (split : PySection → List PyStr)
    (secs : List PySection) :
    ∀ acc : List Chunk, (∀ c ∈ acc, P c) →
      (∀ sec ∈ secs, ∀ ct ∈ split sec, ∀ i, P (bld sec ct i)) →
      ∀ c ∈ secs.foldl
        (fun acc sec =>
          (split sec).foldl (fun a ct => a ++ [bld sec ct a.length]) acc) acc,
        P c := by
  induction secs with
  | nil => intro acc hacc _ c hc; exact hacc c hc
  | cons sec secs ih =>
    intro acc hacc hbld c hc
    simp only [List.foldl_cons] at hc
    refine ih _ ?_ (fun s hs => hbld s (List.mem_cons_of_mem sec hs)) c hc
    exact mem_chunkFold_inner P (bld sec) (split sec) acc hacc
      (hbld sec (List.mem_cons_self sec secs))

/-- Every chunk of `_create_intelligent_chunks` is built from some section
and some chunk of that section's split text. -/
theorem mem_createIntelligentChunks (P : Chunk → Prop) (cs ov : Nat)
    (text filename : PyStr) (pages : List Page)
    (hP : ∀ sec ∈ splitBySections text, ∀ ct ∈ splitTextRecursive cs ov sec.text,
      ∀ i, P (buildChunk filename pages sec ct i)) :
    ∀ c ∈ createIntelligentChunks cs ov text filename pages, P c := by
  intro c hc
  exact mem_chunkFold_outer P (buildChunk filename pages)
    (fun sec => splitTextRecursive cs ov sec.text) (splitBySections text) []
    (by intro d hd; simp at hd) hP c hc

/-! ## Claims about the chunker pipeline -/

/-- Claim C5: every chunk produced by the recursive splitter from any section
text has length (both raw and after the trim applied when the content field is
formed) at most chunkSize + overlap. -/
theorem splitter_chunk_length_le (cs ov : Nat) (text : PyStr) :
    ∀ c ∈ splitTextRecursive cs ov text,
      c.length ≤ cs + ov ∧ (pyStrip c).length ≤ cs + ov := by
  intro c hc
  have h := splitTextRecursive_length_le cs ov text c hc
  have h2 := pyStrip_length_le c
  omega

/-- Witness for C5 at the configured defaults on a sample section text. -/
theorem splitter_chunk_length_le_witness :
    "tiny".data ∈ splitTextRecursive 1000 200 "tiny".data ∧
      ("tiny".data.length ≤ 1000 + 200 ∧ (pyStrip "tiny".data).length ≤ 1000 + 200) :=
  ⟨by decide, splitter_chunk_length_le 1000 200 "tiny".data "tiny".data (by decide)⟩

/-- Claim C4 (amended): every chunk emitted by the chunker for any input
document has page attribution with pageStart ≥ 1 and pageEnd ≥ 1 (both
defaulting to 1 when no containing page is found); the ordering
pageStart ≤ pageEnd, however, can fail (see the counterexample). -/
theorem processPdf_page_bounds (cs ov : Nat) (pageTexts : List PyStr)
    (filename : PyStr) :
    ∀ c ∈ processPdf cs ov pageTexts filename,
      1 ≤ c.metadata.page_start ∧ 1 ≤ c.metadata.page_end := by
  unfold processPdf
  apply mem_createIntelligentChunks
  intro sec _ ct _ i
  exact ⟨(findPageNumbers_pos ct _).1, (findPageNumbers_pos ct _).2⟩

/-- Witness for C4's amended theorem on a concrete one-page document. -/
theorem processPdf_page_bounds_witness :
    1 ≤ ((processPdf 1000 200 ["hi".data] "f".data).get
        ⟨0, by decide⟩).metadata.page_start ∧
      1 ≤ ((processPdf 1000 200 ["hi".data] "f".data).get
        ⟨0, by decide⟩).metadata.page_end :=
  processPdf_page_bounds 1000 200 ["hi".data] "f".data _ (List.get_mem _ _ _)

def padZ : PyStr := List.replicate 30 'z'

/-- Page 2 of the C4 counterexample document opens with a verbatim copy of
what becomes the emitted chunk's first-100-characters excerpt. -/
def page2Text : PyStr :=
  "[Page 1]\n".data ++ List.replicate 90 'w' ++ ['\n'] ++ padZ ++ "\nee \nff".data

/-- Page 1 of the C4 counterexample document ends with a verbatim copy of
what becomes the emitted chunk's last-100-characters excerpt (whose lines,
unlike page 2's, carry no trailing spaces). -/
def page1Text : PyStr :=
  List.replicate 95 'w' ++ " \n".data ++ List.replicate 62 'w' ++ ['\n'] ++ padZ ++
    "\nee\nff".data

/-- Counterexample for C4 as stated: on this two-page document the single
emitted chunk's first excerpt is found only on page 2 and its last excerpt
only on page 1, so the chunk is attributed pageStart = 2, pageEnd = 1 and
pageStart ≤ pageEnd fails. -/
theorem page_order_counterexample :
    ¬ (∀ c ∈ processPdf 1000 200 [page1Text, page2Text] "f".data,
        1 ≤ c.metadata.page_start ∧
          c.metadata.page_start ≤ c.metadata.page_end) := by
  decide

/-- Claim C8 (amended): for a positive chunk size, every unit emitted by the
chunker is built from a non-empty raw chunk text (its recorded chunk_size is
positive); its trimmed content, however, can be empty (see the
counterexample). -/
theorem processPdf_chunk_size_pos (cs ov : Nat) (hcs : 0 < cs)
    (pageTexts : List PyStr) (filename : PyStr) :
    ∀ c ∈ processPdf cs ov pageTexts filename, 0 < c.metadata.chunk_size := by
  unfold processPdf
  apply mem_createIntelligentChunks
  intro sec hsec ct hct i
  have hstrip := splitBySections_strip_ne_nil (fullTextOf (pagesOf pageTexts)) sec hsec
  have hne : ct ≠ [] :=
    splitTextRecursive_ne_nil cs ov hcs sec.text (pyStrip_ne_nil_of_strip hstrip) ct hct
  simpa [buildChunk] using List.length_pos.mpr hne

/-- Witness for C8's amended theorem on a concrete one-page document. -/
theorem processPdf_chunk_size_pos_witness :
    (0 : Nat) < 1000 ∧
      0 < ((processPdf 1000 200 ["hi".data] "f".data).get
        ⟨0, by decide⟩).metadata.chunk_size :=
  ⟨by decide,
    processPdf_chunk_size_pos 1000 200 (by decide) ["hi".data] "f".data _
      (List.get_mem _ _ _)⟩

/-- A one-page document whose single long line keeps 1789 interior spaces
after stripping, so the splitter's second chunk is pure whitespace. -/
def blankChunkPage : PyStr := "y".data ++ List.replicate 1789 ' ' ++ "y".data

/-- Counterexample for C8 as stated: this document makes the chunker emit a
unit whose content is the empty string after trimming. -/
theorem empty_content_counterexample :
    ¬ (∀ c ∈ processPdf 1000 200 [blankChunkPage] "f".data, c.content ≠ []) := by
  decide

/-- Claim C9 (amended): every emitted unit's recorded chunk_size equals the
length of the raw (pre-trim) chunk text it was built from, and is therefore
an upper bound on — but not always equal to — the length of the trimmed
content field. -/
theorem processPdf_byteLength_raw (cs ov : Nat) (pageTexts : List PyStr)
    (filename : PyStr) :
    ∀ c ∈ processPdf cs ov pageTexts filename,
      ∃ raw : PyStr, c.content = pyStrip raw ∧
        c.metadata.chunk_size = raw.length ∧
        c.content.length ≤ c.metadata.chunk_size := by
  unfold processPdf
  apply mem_createIntelligentChunks
  intro sec _ ct _ i
  exact ⟨ct, rfl, rfl, by simpa [buildChunk] using pyStrip_length_le ct⟩

/-- Witness for C9's amended theorem on a concrete one-page document. -/
theorem processPdf_byteLength_raw_witness :
    ∃ raw : PyStr,
      ((processPdf 1000 200 ["hi".data] "f".data).get ⟨0, by decide⟩).content =
          pyStrip raw ∧
        ((processPdf 1000 200 ["hi".data] "f".data).get
            ⟨0, by decide⟩).metadata.chunk_size = raw.length ∧
        ((processPdf 1000 200 ["hi".data] "f".data).get
            ⟨0, by decide⟩).content.length ≤
          ((processPdf 1000 200 ["hi".data] "f".data).get
            ⟨0, by decide⟩).metadata.chunk_size :=
  processPdf_byteLength_raw 1000 200 ["hi".data] "f".data _ (List.get_mem _ _ _)

/-- Counterexample for C9 as stated: on a one-page document with text "hi"
the single chunk's raw text is "\n[Page 1]\nhi" (13 characters) while its
trimmed content "[Page 1]\nhi" has 11, so chunk_size differs from the
content length. -/
theorem byteLength_counterexample :
    ¬ (∀ c ∈ processPdf 1000 200 ["hi".data] "f".data,
        c.metadata.chunk_size = c.content.length) := by
  decide

/-! ## Retrieval orchestration (`src/app.py`, `handle_user_query`, with the
source-tagging behaviour of `LLMHandler.generate_document_response`,
`generate_web_response` and `generate_hybrid_response`) -/

/-- One web search result as produced by `WebSearch.search`. -/
structure WebResult where
  title : PyStr
  url : PyStr
  snippet : PyStr
  source : PyStr
deriving DecidableEq, Repr

/-- A source entry of a response: tagged either `document` or `web`. -/
inductive Source
  | document (filename : PyStr) (page : Nat) (sectionTitle : PyStr) (content : PyStr)
  | web (title url snippet sourceType : PyStr)
deriving DecidableEq, Repr

/-- Whether a source entry carries the `document` tag. -/
def Source.isDocumentTag : Source → Bool
  | Source.document _ _ _ _ => true
  | Source.web _ _ _ _ => false

/-- Whether a source entry carries the `web` tag. -/
def Source.isWebTag : Source → Bool
  | Source.document _ _ _ _ => false
  | Source.web _ _ _ _ => true

/-- The source entry built for a retrieved document chunk (content truncated
to 200 characters with an ellipsis, as in the LLM handler). -/
def docSource (d : Chunk) : Source :=
  Source.document d.metadata.filename d.metadata.page_start d.metadata.sectionTitle
    (if 200 < d.content.length then d.content.take 200 ++ "...".data else d.content)

/-- The source entry built for a web result. -/
def webSource (r : WebResult) : Source :=
  Source.web r.title r.url r.snippet r.source

/-- The text-generation collaborator (`LLMHandler`'s Gemini calls), taken as
given: only the source lists the handler attaches are modelled concretely. -/
structure LLM where
  docText : PyStr → List Chunk → PyStr
  webText : PyStr → List WebResult → PyStr
  hybridText : PyStr → List Chunk → List WebResult → PyStr

def noDocInfoMsg : PyStr :=
  "I couldn\x27t find relevant information in your documents for this query.".data

def noWebInfoMsg : PyStr :=
  "I couldn\x27t find relevant information on the web for this query.".data

def noEvidenceMsg : PyStr :=
  ("I couldn\x27t find relevant information in your documents and web search " ++
    "is not available. Please upload more documents or enable SERPER_API_KEY " ++
    "for web search.").data

def webUnavailableMsg : PyStr :=
  ("Web search is currently unavailable (SERPER_API_KEY not set). " ++
    "Please enable it in your environment to allow web-based answers.").data

/-- A response dictionary: the synthesised text plus its source list. -/
structure ResponseData where
  response : PyStr
  sources : List Source
deriving Repr

/-- `LLMHandler.generate_document_response`. -/
def generateDocumentResponse (llm : LLM) (query : PyStr) (docs : List Chunk) :
    ResponseData :=
  if docs.isEmpty then ⟨noDocInfoMsg, []⟩
  else ⟨llm.docText query docs, docs.map docSource⟩

/-- `LLMHandler.generate_web_response`. -/
def generateWebResponse (llm : LLM) (query : PyStr) (results : List WebResult) :
    ResponseData :=
  if results.isEmpty then ⟨noWebInfoMsg, []⟩
  else ⟨llm.webText query results, results.map webSource⟩

/-- `LLMHandler.generate_hybrid_response`: document sources first, then web
sources. -/
def generateHybridResponse (llm : LLM) (query : PyStr) (docs : List Chunk)
    (webs : List WebResult) : ResponseData :=
  ⟨llm.hybridText query docs webs, docs.map docSource ++ webs.map webSource⟩

/-- The optional web capability (`st.session_state.web_search`): its pure
result function, present only when `WebSearch` initialised successfully. -/
structure WebCap where
  results : PyStr → List WebResult

/-- The outcome of one routed retrieval: the response produced, how many
times the web capability was invoked, and the availability flag
(`st.session_state.web_search_available`) the caller sees. -/
structure RetrievalOutcome where
  data : ResponseData
  webCalls : Nat
  availableWeb : Bool

/-- The routed retrieval logic of `handle_user_query` (src/app.py lines
163-205): document route with web fallback on zero results, web route with an
unavailability message, hybrid route treating an absent web capability as an
empty result list. `docSearch k` models `vector_store.search(user_input, k)`. -/
def orchestrate (llm : LLM) (docSearch : Nat → List Chunk)
    (web : Option WebCap) (query : PyStr) (route : Route) : RetrievalOutcome :=
  match route with
  | Route.document =>
    if !(docSearch 3).isEmpty then
      ⟨generateDocumentResponse llm query (docSearch 3), 0, web.isSome⟩
    else
      match web with
      | some w => ⟨generateWebResponse llm query (w.results query), 1, true⟩
      | none => ⟨⟨noEvidenceMsg, []⟩, 0, false⟩
  | Route.web =>
    match web with
    | some w => ⟨generateWebResponse llm query (w.results query), 1, true⟩
    | none => ⟨⟨webUnavailableMsg, []⟩, 0, false⟩
  | Route.hybrid =>
    match web with
    | some w =>
      ⟨generateHybridResponse llm query (docSearch 2) (w.results query), 1, true⟩
    | none => ⟨generateHybridResponse llm query (docSearch 2) [], 0, false⟩

/-- Claim C2: under a document route with zero document-search results, the
web capability (when present) is invoked exactly once and every returned
source is web-tagged; when the web capability is absent the caller receives
the explicit no-evidence message with an empty source list rather than a bare
empty evidence list. -/
theorem document_route_fallback (llm : LLM) (docSearch : Nat → List Chunk)
    (query : PyStr) (hzero : docSearch 3 = []) :
    (∀ w : WebCap,
      (orchestrate llm docSearch (some w) query Route.document).webCalls = 1 ∧
      (orchestrate llm docSearch (some w) query Route.document).data.sources =
        (w.results query).map webSource ∧
      ∀ s ∈ (orchestrate llm docSearch (some w) query Route.document).data.sources,
        s.isWebTag = true) ∧
    orchestrate llm docSearch none query Route.document =
      ⟨⟨noEvidenceMsg, []⟩, 0, false⟩ := by
  constructor
  · intro w
    have h1 : orchestrate llm docSearch (some w) query Route.document =
        ⟨generateWebResponse llm query (w.results query), 1, true⟩ := by
      simp [orchestrate, hzero]
    refine ⟨by rw [h1], ?_, ?_⟩
    · rw [h1]
      unfold generateWebResponse
      split
      · rename_i hres
        rw [List.isEmpty_iff] at hres
        rw [hres]
        rfl
      · rfl
    · rw [h1]
      unfold generateWebResponse
      split
      · intro s hs
        simp at hs
      · intro s hs
        simp only at hs
        obtain ⟨r, _, hr⟩ := List.mem_map.mp hs
        rw [← hr]
        rfl
  · simp [orchestrate, hzero]

/-- Witness for C2 on a concrete empty index and a one-result web
capability. -/
theorem document_route_fallback_witness :
    ((fun _ : Nat => ([] : List Chunk)) 3 = []) ∧
      (orchestrate ⟨fun _ _ => [], fun _ _ => [], fun _ _ _ => []⟩
          (fun _ => []) (some ⟨fun _ => [⟨"t".data, "u".data, "s".data, "web".data⟩]⟩)
          "q".data Route.document).webCalls = 1 ∧
      orchestrate ⟨fun _ _ => [], fun _ _ => [], fun _ _ _ => []⟩
          (fun _ => []) none "q".data Route.document =
        ⟨⟨noEvidenceMsg, []⟩, 0, false⟩ :=
  ⟨rfl,
    ((document_route_fallback ⟨fun _ _ => [], fun _ _ => [], fun _ _ _ => []⟩
      (fun _ => []) "q".data rfl).1 _).1,
    (document_route_fallback ⟨fun _ _ => [], fun _ _ => [], fun _ _ _ => []⟩
      (fun _ => []) "q".data rfl).2⟩

/-- Claim C3: under a hybrid route with the web capability absent, retrieval
completes normally with the hybrid response built from the document results
and an empty web contribution: every returned source is document-tagged, the
web capability is never invoked, and the caller is signalled
availableWeb = false. -/
theorem hybrid_route_degradation (llm : LLM) (docSearch : Nat → List Chunk)
    (query : PyStr) :
    orchestrate llm docSearch none query Route.hybrid =
      ⟨generateHybridResponse llm query (docSearch 2) [], 0, false⟩ ∧
    (orchestrate llm docSearch none query Route.hybrid).webCalls = 0 ∧
    (orchestrate llm docSearch none query Route.hybrid).availableWeb = false ∧
    ∀ s ∈ (orchestrate llm docSearch none query Route.hybrid).data.sources,
      s.isDocumentTag = true := by
  refine ⟨rfl, rfl, rfl, ?_⟩
  intro s hs
  simp only [orchestrate, generateHybridResponse, List.map_nil, List.append_nil] at hs
  obtain ⟨d, _, hd⟩ := List.mem_map.mp hs
  rw [← hd]
  rfl

/-- Witness for C3 on a concrete one-chunk index. -/
theorem hybrid_route_degradation_witness :
    (orchestrate ⟨fun _ _ => [], fun _ _ => [], fun _ _ _ => "t".data⟩
        (fun _ => [⟨"c".data, ⟨"f".data, "s".data, 1, 1, 0, 1⟩⟩])
        none "q".data Route.hybrid).webCalls = 0 ∧
      (orchestrate ⟨fun _ _ => [], fun _ _ => [], fun _ _ _ => "t".data⟩
        (fun _ => [⟨"c".data, ⟨"f".data, "s".data, 1, 1, 0, 1⟩⟩])
        none "q".data Route.hybrid).availableWeb = false :=
  ⟨(hybrid_route_degradation ⟨fun _ _ => [], fun _ _ => [], fun _ _ _ => "t".data⟩
      (fun _ => [⟨"c".data, ⟨"f".data, "s".data, 1, 1, 0, 1⟩⟩]) "q".data).2.1,
    (hybrid_route_degradation ⟨fun _ _ => [], fun _ _ => [], fun _ _ _ => "t".data⟩
      (fun _ => [⟨"c".data, ⟨"f".data, "s".data, 1, 1, 0, 1⟩⟩]) "q".data).2.2.1⟩
